import Mathlib

/-!
Verification development for the Chess-Tutor repository.

The repository implements a small chess engine (`chess.h` / its implementation
file) and a puzzle mode built on top of it (`chesspuzzle.h` / `chesspuzzle.cpp`).
This file gives a shallow embedding of that code and proves or refutes the
frozen claims about it.

Modelling conventions:
* The C++ board `int board[8][8]` is modelled as a total function
  `Board : Int → Int → Int` (row, then column).  All in-bounds reads and
  writes of the program are represented exactly; the one place where the
  program indexes out of bounds (`Chess::clearBoard`) is modelled by a
  separate, bounds-checked loop that returns `none` on the first
  out-of-range access.
* `Square` keeps the C++ `int` fields.
* Qt signal emissions are modelled as an explicit list of `Event`s produced
  by each operation; the `float` capture coordinates are modelled as `ℚ`
  (for the in-range values the program produces, `col + 0.5f` and
  `8.0f - row - 0.5f` are exact in `float`, so `ℚ` is faithful).
* C++ integer division (truncation toward zero) is `Int.tdiv`.
* Fallible C++ operations (constructor exceptions, `std::stoi`,
  out-of-bounds `std::vector` indexing, undefined behaviour) return
  `Option`.
* `while` loops of the source that walk the board (`isPieceInterrupting`,
  the loops of `clearBoard`) are given a fuel parameter ample for every
  in-bounds execution of the program.
-/

namespace ChessTutor

/-- The 8×8 board of signed piece codes, `board[row][col]` in the source. -/
def Board := Int → Int → Int

/-- A single array write, `board[r][c] = v`. -/
def Board.set (b : Board) (r c v : Int) : Board :=
  fun r' c' => if r' = r ∧ c' = c then v else b r' c'

/-- The all-zero board, the value of the member initializer `int board[8][8]{}`. -/
def emptyBoard : Board := fun _ _ => 0

@[simp] theorem Board.set_same (b : Board) (r c v : Int) : b.set r c v r c = v := by
  simp [Board.set]

theorem Board.set_other (b : Board) (r c v r' c' : Int) (h : ¬(r' = r ∧ c' = c)) :
    b.set r c v r' c' = b r' c' := by
  simp [Board.set, h]

/-- The `struct Square` of `chess.h`: row and column kept as C++ `int`s. -/
structure Square where
  row : Int
  col : Int
deriving DecidableEq

/-- Piece codes from `enum Piece`. -/
def PAWN : Int := 1
def ROOK : Int := 2
def KNIGHT : Int := 3
def BISHOP : Int := 4
def QUEEN : Int := 5
def KING : Int := 6

/-- Player codes from `enum Player`. -/
def WHITE : Int := 1
def BLACK : Int := -1

/-- The `std::tolower` map restricted to the byte values the program feeds it. -/
def toLowerChar (c : Char) : Char :=
  if 'A'.toNat ≤ c.toNat ∧ c.toNat ≤ 'Z'.toNat then Char.ofNat (c.toNat + 32) else c

/-- Transcribes `Square::Square(std::string)`, the constructor from
algebraic text.
`none` models the thrown exception.  Comparisons of C++ `char` values are
modelled on the code points via `toNat`. -/
def Square.ofString (square : List Char) : Option Square :=
  match square with
  | [c0, c1] =>
    let letter := toLowerChar c0
    let num : Int := (c1.toNat : Int) - ('0'.toNat : Int)
    if letter.toNat < 'a'.toNat ∨ letter.toNat > 'h'.toNat then none
    else if num < 0 ∨ num > 8 then none
    else some ⟨8 - num, (letter.toNat : Int) - ('a'.toNat : Int)⟩
  | _ => none

/-- Transcribes `Square::Square(int row, int col)`, the raw-coordinate
constructor.
`none` models the thrown exception. -/
def Square.ofRowCol (row col : Int) : Option Square :=
  if col > 7 ∨ row > 7 ∨ col < 0 ∨ row < 0 then none
  else some ⟨row, col⟩

/-- The Qt signals the engine emits, in emission order. -/
inductive Event where
  | captureAt (x y : ℚ) (count : Int)
  | setPlayer (p : Int)
  | wonGame
  | updateBoard
  | beatPuzzle
  | hintMoveAvailable (fr fc tr tc : Int)
  | hintAvailable (r c : Int)
deriving DecidableEq

/-- Holds exactly on `capture_at` events. -/
def Event.isCapture : Event → Bool
  | .captureAt _ _ _ => true
  | _ => false

/-- Transcribes `Chess::switchPlayer` (without its `set_player` emission, which each
caller's event list records explicitly). -/
def switchPlayer (p : Int) : Int :=
  if p = BLACK then WHITE else BLACK

/-- The body of the `while (current != target)` walk of
`Chess::isPieceInterrupting`, with fuel.  Each iteration first compares the
cursor with the target, then tests the visited square for occupancy, then
steps by the offsets — exactly the source loop.  Fuel 16 is ample for every
aligned in-bounds walk the program performs (at most 7 squares are visited). -/
def interruptAux (b : Board) (rowOffset colOffset tr tc : Int) :
    Nat → Int → Int → Bool
  | 0, _, _ => true
  | fuel + 1, r, c =>
    if r = tr ∧ c = tc then false
    else if b r c ≠ 0 then true
    else interruptAux b rowOffset colOffset tr tc fuel (r + rowOffset) (c + colOffset)

/-- Transcribes `Chess::isPieceInterrupting`: walks from `old` toward `target` in unit
steps (exclusive of both endpoints) and reports whether a non-zero square is
hit before the target. -/
def isPieceInterrupting (b : Board) (rowOffset colOffset : Int)
    (old target : Square) : Bool :=
  interruptAux b rowOffset colOffset target.row target.col 16
    (old.row + rowOffset) (old.col + colOffset)

/-- Transcribes `Chess::isLegalKingMove`: the source tries the nine offsets
`i, j ∈ {-1, 0, 1}` and compares with the target. -/
def isLegalKingMove (old target : Square) : Bool :=
  ([-1, 0, 1] : List Int).any fun i =>
    ([-1, 0, 1] : List Int).any fun j =>
      (⟨old.row + i, old.col + j⟩ : Square) = target

/-- The two offset arrays of `Chess::isLegalKnightMove`, zipped. -/
def knightOffsets : List (Int × Int) :=
  [(-2, 1), (-2, -1), (-1, 2), (-1, -2), (1, -2), (1, 2), (2, 1), (2, -1)]

/-- Transcribes `Chess::isLegalKnightMove`. -/
def isLegalKnightMove (old target : Square) : Bool :=
  knightOffsets.any fun rc =>
    (⟨old.row + rc.1, old.col + rc.2⟩ : Square) = target

/-- Transcribes `Chess::isLegalBishopMove`.  The source computes
`rowOffset/abs(rowOffset)` with C++ truncating division (`Int.tdiv`); when
`old = target` both offsets are zero and the C++ division is undefined
behaviour — the checked variant `isLegalBishopMoveChecked` flags exactly
that case. -/
def isLegalBishopMove (b : Board) (old target : Square) : Bool :=
  let rowOffset := target.row - old.row
  let colOffset := target.col - old.col
  if rowOffset.natAbs = colOffset.natAbs then
    let ro := Int.tdiv rowOffset (rowOffset.natAbs : Int)
    let co := Int.tdiv colOffset (colOffset.natAbs : Int)
    !(isPieceInterrupting b ro co old target)
  else false

/-- Variant of `Chess::isLegalBishopMove` with the division guarded: `none` when the
source would divide by zero (both offsets zero, i.e. `old = target`). -/
def isLegalBishopMoveChecked (b : Board) (old target : Square) : Option Bool :=
  let rowOffset := target.row - old.row
  let colOffset := target.col - old.col
  if rowOffset.natAbs = colOffset.natAbs then
    if rowOffset = 0 then none
    else
      let ro := Int.tdiv rowOffset (rowOffset.natAbs : Int)
      let co := Int.tdiv colOffset (colOffset.natAbs : Int)
      some (!(isPieceInterrupting b ro co old target))
  else some false

/-- Transcribes `Chess::isLegalRookMove`.  The condition `rowOffset == 0 ^ colOffset == 0`
is the C++ xor of the two comparisons; the normalisation mirrors the
`if / else if` of the source (each division there is guarded by a non-zero
test, so the rook move has no division hazard). -/
def isLegalRookMove (b : Board) (old target : Square) : Bool :=
  let rowOffset := target.row - old.row
  let colOffset := target.col - old.col
  if (rowOffset = 0 ∧ colOffset ≠ 0) ∨ (rowOffset ≠ 0 ∧ colOffset = 0) then
    let ro := if rowOffset ≠ 0 then Int.tdiv rowOffset (rowOffset.natAbs : Int) else rowOffset
    let co := if rowOffset ≠ 0 then colOffset
              else if colOffset ≠ 0 then Int.tdiv colOffset (colOffset.natAbs : Int) else colOffset
    !(isPieceInterrupting b ro co old target)
  else false

/-- Transcribes `Chess::isLegalQueenMove`: bishop-or-rook. -/
def isLegalQueenMove (b : Board) (old target : Square) : Bool :=
  isLegalBishopMove b old target || isLegalRookMove b old target

/-- Variant of `Chess::isLegalQueenMove` with the bishop division guarded. -/
def isLegalQueenMoveChecked (b : Board) (old target : Square) : Option Bool :=
  match isLegalBishopMoveChecked b old target with
  | none => none
  | some bish => some (bish || isLegalRookMove b old target)

/-- Transcribes `Chess::isLegalPawnMove`.  Here `direction` is the signed piece code at the
origin; the branch order mirrors the source. -/
def isLegalPawnMove (b : Board) (old target : Square) : Bool :=
  let rowOffset := target.row - old.row
  let colOffset := target.col - old.col
  let direction := b old.row old.col
  if rowOffset * direction > 0 then false
  else if colOffset.natAbs = 1 ∧ rowOffset * direction = -1 then
    decide (b target.row target.col * direction ≤ 0)
  else if colOffset = 0 ∧ rowOffset.natAbs = 2 then
    if (direction = WHITE ∧ old.row ≠ 6) ∨ (direction = BLACK ∧ old.row ≠ 1) then false
    else !(isPieceInterrupting b (-direction) 0 old target)
  else if colOffset = 0 ∧ rowOffset.natAbs = 1 then true
  else false

/-- The result of `Chess::movePieceUnconditionally`: new board, new
side-to-move, and the emitted events in order. -/
structure MoveResult where
  board : Board
  player : Int
  events : List Event

/-- Transcribes `Chess::movePieceUnconditionally`.  Capture detection and the king-taken
test read the board before it is mutated, exactly as in the source; the
event order is `capture_at` (conditional), `set_player` (from
`switchPlayer`), `won_game` (conditional), `update_board`. -/
def movePieceUnconditionally (b : Board) (p : Int) (old target : Square) :
    MoveResult :=
  let isKingTaken := (b target.row target.col).natAbs = 6
  let captureEvents :=
    if b target.row target.col ≠ 0 ∧ b old.row old.col ≠ 0 then
      [Event.captureAt ((target.col : ℚ) + 1/2) ((8 : ℚ) - (target.row : ℚ) - 1/2) 30]
    else []
  let b' := (b.set target.row target.col (b old.row old.col)).set old.row old.col 0
  let p' := switchPlayer p
  { board := b'
    player := p'
    events := captureEvents ++ [Event.setPlayer p'] ++
      (if isKingTaken then [Event.wonGame] else []) ++ [Event.updateBoard] }

/-- The `switch (abs(piece))` dispatch of `Chess::movePiece`: the per-kind
legality predicate for a piece magnitude; magnitudes outside `1..6` hit no
`case` and are rejected. -/
def pieceLegal (b : Board) (kind : Nat) (old target : Square) : Bool :=
  match kind with
  | 6 => isLegalKingMove old target
  | 5 => isLegalQueenMove b old target
  | 4 => isLegalBishopMove b old target
  | 3 => isLegalKnightMove old target
  | 2 => isLegalRookMove b old target
  | 1 => isLegalPawnMove b old target
  | _ => false

/-- Transcribes `Chess::movePiece`: the three guards, then the per-kind dispatch.  Each
`case` of the source either performs the unconditional move (legal) or does
nothing (illegal), which is factored here through `pieceLegal`. -/
def movePiece (b : Board) (p : Int) (oldSquare newSquare : Square) :
    Board × Int :=
  let piece := b oldSquare.row oldSquare.col
  if piece * p ≤ 0 then (b, p)
  else if oldSquare = newSquare then (b, p)
  else if b newSquare.row newSquare.col * p > 0 then (b, p)
  else if pieceLegal b piece.natAbs oldSquare newSquare then
    let r := movePieceUnconditionally b p oldSquare newSquare
    (r.board, r.player)
  else (b, p)

/-- Variant of `Chess::movePiece` with the bishop/queen division guarded, `none` when a
division by zero would occur. -/
def movePieceChecked (b : Board) (p : Int) (oldSquare newSquare : Square) :
    Option (Board × Int) :=
  let piece := b oldSquare.row oldSquare.col
  if piece * p ≤ 0 then some (b, p)
  else if oldSquare = newSquare then some (b, p)
  else if b newSquare.row newSquare.col * p > 0 then some (b, p)
  else
    let legal :=
      match piece.natAbs with
      | 6 => some (isLegalKingMove oldSquare newSquare)
      | 5 => isLegalQueenMoveChecked b oldSquare newSquare
      | 4 => isLegalBishopMoveChecked b oldSquare newSquare
      | 3 => some (isLegalKnightMove oldSquare newSquare)
      | 2 => some (isLegalRookMove b oldSquare newSquare)
      | 1 => some (isLegalPawnMove b oldSquare newSquare)
      | _ => some false
    match legal with
    | none => none
    | some true =>
      let r := movePieceUnconditionally b p oldSquare newSquare
      some (r.board, r.player)
    | some false => some (b, p)

/-- The inner loop of `Chess::clearBoard`, transcribed with its actual
update `col--`; every array access is bounds-checked and an out-of-range
index returns `none` (the C++ behaviour there is undefined). -/
def clearInner : Nat → Int → Int → Board → Option Board
  | 0, _, _, _ => none
  | fuel + 1, row, col, b =>
    if col < 8 then
      if 0 ≤ row ∧ row < 8 ∧ 0 ≤ col ∧ col < 8 then
        clearInner fuel row (col - 1) (b.set row col 0)
      else none
    else some b

/-- The outer loop of `Chess::clearBoard`, with its actual update `row--`. -/
def clearOuter : Nat → Int → Board → Option Board
  | 0, _, _ => none
  | fuel + 1, row, b =>
    if row < 8 then
      match clearInner 32 row 0 b with
      | none => none
      | some b' => clearOuter fuel (row - 1) b'
    else some b

/-- Transcribes `Chess::clearBoard`: `for (int row = 0; row < 8; row--)` over
`for (int col = 0; col < 8; col--)`, zeroing `board[row][col]`. -/
def clearBoard (b : Board) : Option Board :=
  clearOuter 32 0 b

/-- Helper for `ChessPuzzle::split`: reads one `std::getline` token
(characters up to the delimiter) and continues.  `getline` fails at end of
stream with nothing pending, so a trailing delimiter yields no empty final
token and the empty string yields no token at all. -/
def splitAux (d : Char) : List Char → List Char → List (List Char)
  | [], acc => [acc.reverse]
  | c :: rest, acc =>
    if c = d then
      match rest with
      | [] => [acc.reverse]
      | _ => acc.reverse :: splitAux d rest []
    else splitAux d rest (c :: acc)

/-- Transcribes `ChessPuzzle::split`: tokenize with `std::getline` semantics. -/
def splitString (d : Char) (s : List Char) : List (List Char) :=
  match s with
  | [] => []
  | _ => splitAux d s []

/-- The `std::isdigit` test on the characters the program feeds it. -/
def isDigitChar (c : Char) : Bool :=
  decide ('0'.toNat ≤ c.toNat ∧ c.toNat ≤ '9'.toNat)

/-- The digit-string accumulator of `std::stoi`; `none` when no digits. -/
def parseDigits (s : List Char) : Option Nat :=
  let ds := s.takeWhile isDigitChar
  if ds.isEmpty then none
  else some (ds.foldl (fun a c => a * 10 + (c.toNat - '0'.toNat)) 0)

/-- Models `std::stoi`: optional leading whitespace, optional sign, then digits;
`none` models the thrown `std::invalid_argument`.  (Overflow is not
modelled; the rating fields of the puzzle data are small.) -/
def stoiCpp (s : List Char) : Option Int :=
  let s1 := s.dropWhile fun c => c = ' ' ∨ c = '\t' ∨ c = '\n' ∨ c = '\r'
  match s1 with
  | '-' :: rest => (parseDigits rest).map fun n => -(n : Int)
  | '+' :: rest => (parseDigits rest).map fun n => (n : Int)
  | _ => (parseDigits s1).map fun n => (n : Int)

/-- Transcribes `ChessPuzzle::toPiece`: the FEN letter → piece-code table. -/
def toPiece (c : Char) : Int :=
  if c = 'k' then -KING
  else if c = 'q' then -QUEEN
  else if c = 'n' then -KNIGHT
  else if c = 'b' then -BISHOP
  else if c = 'r' then -ROOK
  else if c = 'p' then -PAWN
  else if c = 'K' then KING
  else if c = 'Q' then QUEEN
  else if c = 'N' then KNIGHT
  else if c = 'B' then BISHOP
  else if c = 'R' then ROOK
  else if c = 'P' then PAWN
  else 0

/-- The character loop of `ChessPuzzle::loadFEN` over the placement field:
`/` advances the row, a digit advances the column, anything else writes a
piece and advances the column. -/
def fenFold : List Char → Int × Int × Board → Int × Int × Board
  | [], st => st
  | c :: rest, (row, col, b) =>
    if c = '/' then fenFold rest (row + 1, 0, b)
    else if isDigitChar c then
      fenFold rest (row, col + ((c.toNat : Int) - ('0'.toNat : Int)), b)
    else fenFold rest (row, col + 1, b.set row col (toPiece c))

/-- Transcribes `ChessPuzzle::loadFEN`, run on the zero board the constructor starts
from: returns the populated board and the starting player.  `none` models
the out-of-bounds `parts[1]` access when the FEN has fewer than two
space-separated fields. -/
def loadFEN (fen : List Char) : Option (Board × Int) :=
  match splitString ' ' fen with
  | startingPositions :: startingPlayer :: _ =>
    let st := fenFold startingPositions (0, 0, emptyBoard)
    some (st.2.2, if startingPlayer = ['b'] then BLACK else WHITE)
  | _ => none

/-- One token of `ChessPuzzle::loadMoves`:
`Square{move.substr(0, 2)}` then `Square{move.substr(2, 2)}`. -/
def parseMoveToken (tok : List Char) : Option (Square × Square) := do
  let a ← Square.ofString (tok.take 2)
  let b ← Square.ofString ((tok.drop 2).take 2)
  pure (a, b)

/-- Transcribes `ChessPuzzle::loadMoves`: split on spaces and convert each token;
`none` models a constructor exception escaping the loop. -/
def loadMoves (pgnMoves : List Char) : Option (List (Square × Square)) :=
  (splitString ' ' pgnMoves).mapM parseMoveToken

/-- The state of a `ChessPuzzle` object, with the emitted events appended
in order. -/
structure PuzzleState where
  board : Board
  currentPlayer : Int
  currentStep : Nat
  puzzleElo : Int
  solutionMoves : List (Square × Square)
  usedHint : Bool
  events : List Event

/-- Transcribes `ChessPuzzle::makeOpponentMove`: plays `solutionMoves[currentStep]`
unconditionally and advances the cursor.  `none` models the out-of-bounds
vector access when the cursor is past the end. -/
def makeOpponentMove (st : PuzzleState) : Option PuzzleState :=
  match st.solutionMoves.get? st.currentStep with
  | none => none
  | some (piece, move) =>
    let r := movePieceUnconditionally st.board st.currentPlayer piece move
    some { st with
      board := r.board
      currentPlayer := r.player
      currentStep := st.currentStep + 1
      events := st.events ++ r.events }

/-- The member-initializer state of a fresh `ChessPuzzle`, including the
`set_player(WHITE)` emitted by the base `Chess` constructor. -/
def initialPuzzleState : PuzzleState where
  board := emptyBoard
  currentPlayer := WHITE
  currentStep := 0
  puzzleElo := 0
  solutionMoves := []
  usedHint := false
  events := [Event.setPlayer WHITE]

/-- Transcribes `ChessPuzzle::ChessPuzzle(const std::string&)`: split the
CSV record,
return early (leaving defaults) on fewer than 9 fields, otherwise parse the
rating, FEN and move list, make the forced opponent move, and emit the
resulting side-to-move.  `none` models any escaping exception or undefined
behaviour. -/
def mkPuzzleFromCSV (PGN : List Char) : Option PuzzleState :=
  let parts := splitString ',' PGN
  if parts.length < 9 then some initialPuzzleState
  else
    match parts.get? 1, parts.get? 2, parts.get? 3 with
    | some fen, some moves, some eloField =>
      (match stoiCpp eloField with
      | none => none
      | some elo =>
        match loadFEN fen with
        | none => none
        | some (b, pl) =>
          match loadMoves moves with
          | none => none
          | some sol =>
            match makeOpponentMove { initialPuzzleState with
                board := b, currentPlayer := pl, puzzleElo := elo,
                solutionMoves := sol } with
            | none => none
            | some st1 =>
              some { st1 with
                events := st1.events ++ [Event.setPlayer st1.currentPlayer] })
    | _, _, _ => none

/-- The outcome of `ChessPuzzle::makeGuess`: the returned `Bool`, the state
after the call, and whether a deferred opponent reply was scheduled with
`QTimer::singleShot` (the reply itself runs after the call returns). -/
structure GuessResult where
  res : Bool
  state : PuzzleState
  scheduledOpponent : Bool

/-- Transcribes `ChessPuzzle::makeGuess`. -/
def makeGuess (st : PuzzleState) (src dst : Square) : GuessResult :=
  if st.currentStep ≥ st.solutionMoves.length then ⟨false, st, false⟩
  else
    match st.solutionMoves.get? st.currentStep with
    | none => ⟨false, st, false⟩
    | some (expFrom, expTo) =>
      if src = expFrom ∧ dst = expTo then
        let r := movePieceUnconditionally st.board st.currentPlayer src dst
        let st' := { st with
          board := r.board
          currentPlayer := r.player
          currentStep := st.currentStep + 1
          events := st.events ++ r.events }
        if st'.currentStep = st.solutionMoves.length then
          ⟨true, { st' with events := st'.events ++ [Event.beatPuzzle] }, false⟩
        else ⟨true, st', true⟩
      else ⟨false, st, false⟩

/-! ## Helper lemmas -/

theorem char_eq_of_toNat_eq {a b : Char} (h : a.toNat = b.toNat) : a = b :=
  Char.eq_of_val_eq (UInt32.eq_of_toBitVec_eq (BitVec.eq_of_toNat_eq (by
    simpa [UInt32.toNat] using h)))

/-! ## C1 -/

/-- C1: the claim states that `clearBoard` sets every one of the 64 squares
to piece code 0.  The source loops are `for (int row = 0; row < 8; row--)`
and `for (int col = 0; col < 8; col--)`: the first inner iteration zeroes
`board[0][0]` and the second accesses `board[0][-1]`, which is out of
bounds, so the bounds-checked transcription fails on every starting board
and no all-zero board is ever produced. -/
theorem clearBoard_indexes_out_of_bounds : ∀ b : Board, clearBoard b = none :=
  fun _ => rfl

/-! ## C2 -/

/-- C2 counterexample: the algebraic constructor accepts `"a0"` and yields
`row = 8`, outside `[0,7]`, so a successfully constructed `Square` can
violate the claimed bounds invariant. -/
theorem square_a0_escapes_bounds :
    Square.ofString ['a', '0'] = some ⟨8, 0⟩ ∧ ¬((0 : Int) ≤ 8 ∧ (8 : Int) ≤ 7) := by
  constructor
  · rfl
  · decide

/-- C2 (amended): the raw `(row, col)` constructor accepts exactly the
inputs with both coordinates in `[0,7]` and stores them unchanged (no
clamping); the algebraic constructor yields `col ∈ [0,7]` and `row ∈ [0,8]`,
where `row = 8` occurs exactly for the accepted degenerate rank digit `'0'`
— every other accepted algebraic input satisfies the `[0,7]` invariant. -/
theorem square_construction_bounds :
    (∀ r c : Int, (Square.ofRowCol r c).isSome ↔ (0 ≤ r ∧ r ≤ 7 ∧ 0 ≤ c ∧ c ≤ 7)) ∧
    (∀ r c : Int, ∀ sq : Square, Square.ofRowCol r c = some sq → sq.row = r ∧ sq.col = c) ∧
    (∀ s : List Char, ∀ sq : Square, Square.ofString s = some sq →
      (0 ≤ sq.col ∧ sq.col ≤ 7) ∧ (0 ≤ sq.row ∧ sq.row ≤ 8) ∧
      (sq.row = 8 ↔ s[1]? = some '0')) := by
  refine ⟨?_, ?_, ?_⟩
  · intro r c
    unfold Square.ofRowCol
    by_cases h : c > 7 ∨ r > 7 ∨ c < 0 ∨ r < 0
    · simp only [if_pos h, Option.isSome_none, Bool.false_eq_true, false_iff]
      omega
    · simp only [if_neg h, Option.isSome_some, true_iff]
      omega
  · intro r c sq h
    unfold Square.ofRowCol at h
    split at h
    · exact absurd h (by simp)
    · obtain rfl : (⟨r, c⟩ : Square) = sq := Option.some_inj.mp h
      exact ⟨rfl, rfl⟩
  · intro s sq h
    match s with
    | [] => exact absurd h (by simp [Square.ofString])
    | [c0] => exact absurd h (by simp [Square.ofString])
    | c0 :: c1 :: c2 :: rest => exact absurd h (by simp [Square.ofString])
    | [c0, c1] =>
      have ha : 'a'.toNat = 97 := rfl
      have hh : 'h'.toNat = 104 := rfl
      have h0 : '0'.toNat = 48 := rfl
      simp only [Square.ofString] at h
      split at h
      · exact absurd h (by simp)
      · split at h
        · exact absurd h (by simp)
        · rename_i hlet hnum
          obtain rfl : (⟨8 - ((c1.toNat : Int) - ('0'.toNat : Int)),
              ((toLowerChar c0).toNat : Int) - ('a'.toNat : Int)⟩ : Square) = sq :=
            Option.some_inj.mp h
          rw [ha, hh] at hlet
          rw [h0] at hnum
          refine ⟨⟨?_, ?_⟩, ⟨?_, ?_⟩, ?_⟩
          · simp only [ha]; omega
          · simp only [ha]; omega
          · simp only [h0]; omega
          · simp only [h0]; omega
          · simp only [h0, List.getElem?_cons_succ, List.getElem?_cons_zero]
            constructor
            · intro hr
              have : c1.toNat = 48 := by omega
              have : c1 = '0' := char_eq_of_toNat_eq (by rw [this]; rfl)
              rw [this]
            · intro hc
              obtain rfl : c1 = '0' := Option.some_inj.mp hc
              simp

/-- C2 witness: the amended bounds at the concrete inputs `"e4"` (algebraic)
and `(3, 4)` (raw): both accepted, both inside `[0,7]`. -/
theorem square_construction_bounds_witness :
    ((0 : Int) ≤ (Square.mk 4 4).col ∧ (Square.mk 4 4).col ≤ 7) ∧
    (Square.ofRowCol 3 4).isSome = true := by
  refine ⟨?_, ?_⟩
  · have h := square_construction_bounds.2.2 ['e', '4'] ⟨4, 4⟩ rfl
    exact ⟨h.1.1, h.1.2⟩
  · exact (square_construction_bounds.1 3 4).mpr (by omega)

/-! ## C3 -/

/-- A board whose only piece is a white king on `(0, 0)`. -/
def kingOnlyBoard : Board := fun r c => if r = 0 ∧ c = 0 then KING else 0

/-- C3 counterexample: calling `movePieceUnconditionally` from the empty
square `(7,7)` onto the king at `(0,0)` fires no capture event even though
the destination holds a non-zero piece, and fires a game-won event in a
call in which no capture event fired — refuting both the claimed
"capture iff destination non-zero" and "won never without capture". -/
theorem won_game_without_capture :
    (movePieceUnconditionally kingOnlyBoard WHITE ⟨7, 7⟩ ⟨0, 0⟩).events.countP
        Event.isCapture = 0 ∧
    kingOnlyBoard 0 0 ≠ 0 ∧
    Event.wonGame ∈ (movePieceUnconditionally kingOnlyBoard WHITE ⟨7, 7⟩ ⟨0, 0⟩).events := by
  refine ⟨by decide, by decide, by decide⟩

/-- C3 (amended): in `movePieceUnconditionally` a capture event fires iff
the destination **and the origin** both hold non-zero pieces (with the
claimed coordinates `(col + 0.5, (8 − row) − 0.5)` and particle count 30);
exactly one game-won event fires iff the destination piece's magnitude
equals `KING`'s code, regardless of whether a capture event fired (so a won
event can fire without a capture when the origin is empty); a board-updated
event always fires and the side-to-move flips. -/
theorem mpu_event_contract (b : Board) (p : Int) (src dst : Square) :
    ((movePieceUnconditionally b p src dst).events.countP Event.isCapture =
      if b dst.row dst.col ≠ 0 ∧ b src.row src.col ≠ 0 then 1 else 0) ∧
    (b dst.row dst.col ≠ 0 → b src.row src.col ≠ 0 →
      Event.captureAt ((dst.col : ℚ) + 1/2) ((8 : ℚ) - (dst.row : ℚ) - 1/2) 30 ∈
        (movePieceUnconditionally b p src dst).events) ∧
    ((movePieceUnconditionally b p src dst).events.count Event.wonGame =
      if (b dst.row dst.col).natAbs = 6 then 1 else 0) ∧
    Event.updateBoard ∈ (movePieceUnconditionally b p src dst).events ∧
    ((p = WHITE ∨ p = BLACK) → (movePieceUnconditionally b p src dst).player = -p) := by
  unfold movePieceUnconditionally
  refine ⟨?_, ?_, ?_, ?_, ?_⟩
  · by_cases hcap : b dst.row dst.col ≠ 0 ∧ b src.row src.col ≠ 0 <;>
      by_cases hk : (b dst.row dst.col).natAbs = 6 <;>
      simp [hcap, hk, List.countP_cons, Event.isCapture]
  · intro h1 h2
    simp [h1, h2]
  · by_cases hcap : b dst.row dst.col ≠ 0 ∧ b src.row src.col ≠ 0 <;>
      by_cases hk : (b dst.row dst.col).natAbs = 6 <;>
      simp [hcap, hk, List.count_cons]
  · by_cases hcap : b dst.row dst.col ≠ 0 ∧ b src.row src.col ≠ 0 <;>
      by_cases hk : (b dst.row dst.col).natAbs = 6 <;>
      simp [hcap, hk]
  · rintro (rfl | rfl) <;> rfl

/-- C3 witness: the amended contract instantiated at a concrete capture of
a king: one capture event at `(4.5, 7.5)`, one won event, an update event,
and the side flips from white to black. -/
theorem mpu_event_contract_witness :
    Event.captureAt ((4 : ℚ) + 1/2) ((8 : ℚ) - (0 : ℚ) - 1/2) 30 ∈
      (movePieceUnconditionally
        (fun r c => if r = 0 ∧ c = 4 then -6 else if r = 7 ∧ c = 4 then 5 else 0)
        WHITE ⟨7, 4⟩ ⟨0, 4⟩).events ∧
    (movePieceUnconditionally
        (fun r c => if r = 0 ∧ c = 4 then -6 else if r = 7 ∧ c = 4 then 5 else 0)
        WHITE ⟨7, 4⟩ ⟨0, 4⟩).player = -WHITE := by
  refine ⟨(mpu_event_contract _ WHITE ⟨7, 4⟩ ⟨0, 4⟩).2.1 (by decide) (by decide),
    (mpu_event_contract _ WHITE ⟨7, 4⟩ ⟨0, 4⟩).2.2.2.2 (Or.inl rfl)⟩

/-! ## C9 -/

/-- C9: a CSV record with fewer than 9 comma-separated fields leaves the
puzzle session inert: the constructor returns early, so the solution list
is empty, the board is all zeros, the rating is 0, `currentStep` is 0, and
no move has been played (the only emission is the base constructor's
`set_player`). -/
theorem puzzle_inert_on_short_record (PGN : List Char)
    (h : (splitString ',' PGN).length < 9) :
    mkPuzzleFromCSV PGN = some initialPuzzleState ∧
    initialPuzzleState.solutionMoves = [] ∧
    initialPuzzleState.board = emptyBoard ∧
    initialPuzzleState.puzzleElo = 0 ∧
    initialPuzzleState.currentStep = 0 ∧
    (∀ e ∈ initialPuzzleState.events, e = Event.setPlayer WHITE) := by
  refine ⟨?_, rfl, rfl, rfl, rfl, ?_⟩
  · unfold mkPuzzleFromCSV
    rw [if_pos h]
  · intro e he
    simpa [initialPuzzleState] using he

/-- C9 witness: the inert-state conclusion at the concrete malformed record
`"a,b,c"`. -/
theorem puzzle_inert_on_short_record_witness :
    mkPuzzleFromCSV ['a', ',', 'b', ',', 'c'] = some initialPuzzleState :=
  (puzzle_inert_on_short_record ['a', ',', 'b', ',', 'c'] (by decide)).1

/-! ## C4 -/

/-- C4: `movePiece` either leaves the board and side-to-move completely
unchanged (and raises no error) — exactly when the origin piece does not
belong to the side to move, or origin equals target, or the target holds a
friendly piece, or the origin piece's per-kind legality predicate rejects
the move — or it applies the unconditional move and toggles the
side-to-move exactly once. -/
theorem movePiece_contract (b : Board) (p : Int) (src dst : Square)
    (hp : p = WHITE ∨ p = BLACK) :
    (movePiece b p src dst = (b, p) ↔
      (b src.row src.col * p ≤ 0 ∨ src = dst ∨ b dst.row dst.col * p > 0 ∨
        pieceLegal b (b src.row src.col).natAbs src dst = false)) ∧
    (¬(b src.row src.col * p ≤ 0 ∨ src = dst ∨ b dst.row dst.col * p > 0 ∨
        pieceLegal b (b src.row src.col).natAbs src dst = false) →
      movePiece b p src dst = ((movePieceUnconditionally b p src dst).board, -p)) := by
  have hplayer : (movePieceUnconditionally b p src dst).player = -p := by
    rcases hp with rfl | rfl <;> rfl
  have hne : -p ≠ p := by rcases hp with rfl | rfl <;> decide
  unfold movePiece
  by_cases h1 : b src.row src.col * p ≤ 0
  · simp [h1]
  · rw [if_neg h1]
    by_cases h2 : src = dst
    · simp [h1, h2]
    · rw [if_neg h2]
      by_cases h3 : b dst.row dst.col * p > 0
      · simp [h1, h2, h3]
      · rw [if_neg h3]
        by_cases h4 : pieceLegal b (b src.row src.col).natAbs src dst = true
        · rw [if_pos h4]
          constructor
          · constructor
            · intro heq
              have hsnd : (movePieceUnconditionally b p src dst).player = p :=
                congrArg Prod.snd heq
              rw [hplayer] at hsnd
              exact absurd hsnd hne
            · intro hor
              rcases hor with h | h | h | h
              · exact absurd h h1
              · exact absurd h h2
              · exact absurd h h3
              · rw [h4] at h; exact absurd h (by decide)
          · intro _
            show ((movePieceUnconditionally b p src dst).board,
              (movePieceUnconditionally b p src dst).player) = _
            rw [hplayer]
        · rw [if_neg h4]
          simp only [Bool.not_eq_true] at h4
          simp [h1, h2, h3, h4]

/-- The standard white-pieces-at-bottom starting board of
`Chess::loadDefaultBoard`, used as a concrete instance. -/
def defaultBoard : Board := fun r c =>
  if r = 0 then
    if c = 0 ∨ c = 7 then -ROOK else if c = 1 ∨ c = 6 then -KNIGHT
    else if c = 2 ∨ c = 5 then -BISHOP else if c = 3 then -QUEEN else -KING
  else if r = 1 then -PAWN
  else if r = 6 then PAWN
  else if r = 7 then
    if c = 0 ∨ c = 7 then ROOK else if c = 1 ∨ c = 6 then KNIGHT
    else if c = 2 ∨ c = 5 then BISHOP else if c = 3 then QUEEN else KING
  else 0

/-- C4 witness: the contract at the accepted opening move e2→e4 on the
default board: the no-op characterisation rules out a silent rejection. -/
theorem movePiece_contract_witness :
    ¬(movePiece defaultBoard WHITE ⟨6, 4⟩ ⟨4, 4⟩ = (defaultBoard, WHITE)) := by
  have h := (movePiece_contract defaultBoard WHITE ⟨6, 4⟩ ⟨4, 4⟩ (Or.inl rfl)).1
  intro heq
  rcases h.mp heq with hc | hc | hc | hc
  · exact absurd hc (by decide)
  · exact absurd hc (by decide)
  · exact absurd hc (by decide)
  · exact absurd hc (by decide)

/-! ## C10 -/

/-- When the origin and target differ, the guarded bishop predicate never
hits the division by zero: it agrees with the unchecked transcription. -/
theorem bishopChecked_of_ne (b : Board) (src dst : Square) (h : src ≠ dst) :
    isLegalBishopMoveChecked b src dst = some (isLegalBishopMove b src dst) := by
  by_cases hd : (dst.row - src.row).natAbs = (dst.col - src.col).natAbs
  · have hr0 : ¬(dst.row - src.row = 0) := by
      intro h0
      apply h
      have hc0 : (dst.col - src.col).natAbs = 0 := by rw [← hd, h0]; rfl
      have hc0' : dst.col - src.col = 0 := Int.natAbs_eq_zero.mp hc0
      cases src; cases dst
      simp only [Square.mk.injEq]
      constructor <;> simp_all <;> omega
    simp [isLegalBishopMoveChecked, isLegalBishopMove, hd, hr0]
  · simp [isLegalBishopMoveChecked, isLegalBishopMove, hd]

/-- Likewise for the queen, whose bishop half carries the division. -/
theorem queenChecked_of_ne (b : Board) (src dst : Square) (h : src ≠ dst) :
    isLegalQueenMoveChecked b src dst = some (isLegalQueenMove b src dst) := by
  unfold isLegalQueenMoveChecked isLegalQueenMove
  rw [bishopChecked_of_ne b src dst h]

/-- C10: the guards of `movePiece` run before the dispatch, so the bishop
and queen predicates are never entered with origin = target: the
division-guarded transcription `movePieceChecked` never fails and agrees
with the total function `movePiece` on every board, player, and square
pair — no division by zero occurs in any `movePiece` call. -/
theorem movePiece_never_divides_by_zero (b : Board) (p : Int) (src dst : Square) :
    movePieceChecked b p src dst = some (movePiece b p src dst) := by
  unfold movePieceChecked movePiece
  by_cases h1 : b src.row src.col * p ≤ 0
  · simp [h1]
  · rw [if_neg h1, if_neg h1]
    by_cases h2 : src = dst
    · simp [h2]
    · rw [if_neg h2, if_neg h2]
      by_cases h3 : b dst.row dst.col * p > 0
      · simp [h3]
      · rw [if_neg h3, if_neg h3]
        have hmatch :
            (match (b src.row src.col).natAbs with
              | 6 => some (isLegalKingMove src dst)
              | 5 => isLegalQueenMoveChecked b src dst
              | 4 => isLegalBishopMoveChecked b src dst
              | 3 => some (isLegalKnightMove src dst)
              | 2 => some (isLegalRookMove b src dst)
              | 1 => some (isLegalPawnMove b src dst)
              | _ => some false) =
            some (pieceLegal b (b src.row src.col).natAbs src dst) := by
          generalize (b src.row src.col).natAbs = k
          match k with
          | 0 => rfl
          | 1 => rfl
          | 2 => rfl
          | 3 => rfl
          | 4 => exact bishopChecked_of_ne b src dst h2
          | 5 => exact queenChecked_of_ne b src dst h2
          | 6 => rfl
          | n + 7 => rfl
        rw [hmatch]
        by_cases hl : pieceLegal b (b src.row src.col).natAbs src dst = true
        · rw [hl]; rfl
        · simp only [Bool.not_eq_true] at hl
          rw [hl]; rfl

/-! ## C6 -/

/-- C++ truncating division of a non-zero multiple of a unit by its own
absolute value recovers the unit: the normalisation step of the sliding
predicates. -/
theorem tdiv_unit (n : Nat) (hn : 0 < n) (d : Int) (hd : d = 1 ∨ d = -1) :
    Int.tdiv ((n : Int) * d) ((((n : Int) * d).natAbs : Nat) : Int) = d := by
  rcases hd with rfl | rfl <;> simp [Int.natAbs_mul] <;>
    exact Int.tdiv_self (by exact_mod_cast hn.ne')

/-- If some square visited strictly before the target is occupied, the
`while (current != target)` walk of `isPieceInterrupting` reports a hit:
the cursor reaches the first occupied square before it can reach the
target. -/
theorem interruptAux_of_occupied (b : Board) (ro co : Int)
    (hnz : ¬(ro = 0 ∧ co = 0)) :
    ∀ (m fuel : Nat) (r c : Int), m ≤ fuel →
      (∃ j : Nat, j < m ∧ b (r + (j : Int) * ro) (c + (j : Int) * co) ≠ 0) →
      interruptAux b ro co (r + (m : Int) * ro) (c + (m : Int) * co) fuel r c = true := by
  intro m
  induction m with
  | zero =>
    rintro fuel r c _ ⟨j, hj, _⟩
    omega
  | succ m ih =>
    rintro fuel r c hfuel ⟨j, hj, hocc⟩
    obtain ⟨f, rfl⟩ : ∃ f, fuel = f + 1 := ⟨fuel - 1, by omega⟩
    simp only [interruptAux]
    have hneq : ¬(r = r + ((m + 1 : Nat) : Int) * ro ∧
        c = c + ((m + 1 : Nat) : Int) * co) := by
      rintro ⟨hr, hc⟩
      apply hnz
      have hro : ((m + 1 : Nat) : Int) * ro = 0 := by omega
      have hco : ((m + 1 : Nat) : Int) * co = 0 := by omega
      have hm : ((m + 1 : Nat) : Int) ≠ 0 := by push_cast; omega
      exact ⟨(mul_eq_zero.mp hro).resolve_left hm, (mul_eq_zero.mp hco).resolve_left hm⟩
    rw [if_neg hneq]
    by_cases hbr : b r c ≠ 0
    · rw [if_pos hbr]
    · rw [if_neg hbr]
      push_neg at hbr
      have hj0 : j ≠ 0 := by
        rintro rfl
        simp only [Nat.cast_zero, zero_mul, add_zero] at hocc
        exact hocc hbr
      obtain ⟨j', rfl⟩ : ∃ j', j = j' + 1 := ⟨j - 1, by omega⟩
      have key := ih f (r + ro) (c + co) (by omega)
        ⟨j', by omega, by
          have e1 : r + ro + (j' : Int) * ro = r + ((j' + 1 : Nat) : Int) * ro := by
            push_cast; ring
          have e2 : c + co + (j' : Int) * co = c + ((j' + 1 : Nat) : Int) * co := by
            push_cast; ring
          rw [e1, e2]; exact hocc⟩
      have e3 : r + ro + (m : Int) * ro = r + ((m + 1 : Nat) : Int) * ro := by
        push_cast; ring
      have e4 : c + co + (m : Int) * co = c + ((m + 1 : Nat) : Int) * co := by
        push_cast; ring
      rw [e3, e4] at key
      exact key

/-- With unit offsets, `isPieceInterrupting` reports a hit whenever some
square strictly between origin and target (both exclusive) is occupied. -/
theorem isPieceInterrupting_of_occupied (b : Board) (src : Square) (dr dc : Int)
    (hnz : ¬(dr = 0 ∧ dc = 0)) (n k : Nat) (hn : 1 ≤ n) (hn16 : n ≤ 16)
    (hk : 1 ≤ k) (hkn : k < n)
    (hocc : b (src.row + (k : Int) * dr) (src.col + (k : Int) * dc) ≠ 0) :
    isPieceInterrupting b dr dc src
      ⟨src.row + (n : Int) * dr, src.col + (n : Int) * dc⟩ = true := by
  unfold isPieceInterrupting
  have key := interruptAux_of_occupied b dr dc hnz (n - 1) 16
    (src.row + dr) (src.col + dc) (by omega)
    ⟨k - 1, by omega, by
      have e1 : src.row + dr + ((k - 1 : Nat) : Int) * dr = src.row + (k : Int) * dr := by
        push_cast [Nat.cast_sub hk]; ring
      have e2 : src.col + dc + ((k - 1 : Nat) : Int) * dc = src.col + (k : Int) * dc := by
        push_cast [Nat.cast_sub hk]; ring
      rw [e1, e2]; exact hocc⟩
  have e3 : src.row + dr + ((n - 1 : Nat) : Int) * dr = src.row + (n : Int) * dr := by
    push_cast [Nat.cast_sub hn]; ring
  have e4 : src.col + dc + ((n - 1 : Nat) : Int) * dc = src.col + (n : Int) * dc := by
    push_cast [Nat.cast_sub hn]; ring
  rw [e3, e4] at key
  exact key

/-- A blocked vertical rook path is rejected. -/
theorem vertical_rook_blocked (b : Board) (src : Square) (d : Int)
    (hd : d = 1 ∨ d = -1) (n k : Nat) (hn : 2 ≤ n) (hn16 : n ≤ 16)
    (hk : 1 ≤ k) (hkn : k < n)
    (hocc : b (src.row + (k : Int) * d) src.col ≠ 0) :
    isLegalRookMove b src ⟨src.row + (n : Int) * d, src.col⟩ = false := by
  have hd1 : (n : Int) * d ≠ 0 := by rcases hd with rfl | rfl <;> omega
  simp only [isLegalRookMove]
  rw [show src.row + (n : Int) * d - src.row = (n : Int) * d from by ring,
      show src.col - src.col = (0 : Int) from by ring]
  rw [if_pos (Or.inr ⟨hd1, rfl⟩)]
  rw [if_pos hd1, if_pos hd1]
  rw [tdiv_unit n (by omega) d hd]
  rw [show (⟨src.row + (n : Int) * d, src.col⟩ : Square) =
      ⟨src.row + (n : Int) * d, src.col + (n : Int) * 0⟩ from by norm_num]
  rw [isPieceInterrupting_of_occupied b src d 0
    (by rcases hd with rfl | rfl <;> simp) n k (by omega) hn16 hk hkn
    (by simpa using hocc)]
  rfl

/-- A blocked horizontal rook path is rejected. -/
theorem horizontal_rook_blocked (b : Board) (src : Square) (d : Int)
    (hd : d = 1 ∨ d = -1) (n k : Nat) (hn : 2 ≤ n) (hn16 : n ≤ 16)
    (hk : 1 ≤ k) (hkn : k < n)
    (hocc : b src.row (src.col + (k : Int) * d) ≠ 0) :
    isLegalRookMove b src ⟨src.row, src.col + (n : Int) * d⟩ = false := by
  have hd1 : (n : Int) * d ≠ 0 := by rcases hd with rfl | rfl <;> omega
  simp only [isLegalRookMove]
  rw [show src.row - src.row = (0 : Int) from by ring,
      show src.col + (n : Int) * d - src.col = (n : Int) * d from by ring]
  rw [if_pos (Or.inl ⟨rfl, hd1⟩)]
  rw [if_neg (by simp), if_neg (by simp)]
  rw [if_pos hd1]
  rw [tdiv_unit n (by omega) d hd]
  rw [show (⟨src.row, src.col + (n : Int) * d⟩ : Square) =
      ⟨src.row + (n : Int) * 0, src.col + (n : Int) * d⟩ from by norm_num]
  rw [isPieceInterrupting_of_occupied b src 0 d
    (by rcases hd with rfl | rfl <;> simp) n k (by omega) hn16 hk hkn
    (by simpa using hocc)]
  rfl

/-- A blocked diagonal bishop path is rejected. -/
theorem diagonal_bishop_blocked (b : Board) (src : Square) (dr dc : Int)
    (hdr : dr = 1 ∨ dr = -1) (hdc : dc = 1 ∨ dc = -1) (n k : Nat)
    (hn : 2 ≤ n) (hn16 : n ≤ 16) (hk : 1 ≤ k) (hkn : k < n)
    (hocc : b (src.row + (k : Int) * dr) (src.col + (k : Int) * dc) ≠ 0) :
    isLegalBishopMove b src
      ⟨src.row + (n : Int) * dr, src.col + (n : Int) * dc⟩ = false := by
  simp only [isLegalBishopMove]
  rw [show src.row + (n : Int) * dr - src.row = (n : Int) * dr from by ring,
      show src.col + (n : Int) * dc - src.col = (n : Int) * dc from by ring]
  rw [if_pos (by rcases hdr with rfl | rfl <;> rcases hdc with rfl | rfl <;>
    simp [Int.natAbs_mul])]
  rw [tdiv_unit n (by omega) dr hdr, tdiv_unit n (by omega) dc hdc]
  rw [isPieceInterrupting_of_occupied b src dr dc
    (by rcases hdr with rfl | rfl <;> simp) n k (by omega) hn16 hk hkn hocc]
  rfl

/-- A diagonal displacement fails the rook's orthogonality test. -/
theorem rook_rejects_diagonal (b : Board) (src : Square) (dr dc : Int)
    (hdr : dr = 1 ∨ dr = -1) (hdc : dc = 1 ∨ dc = -1) (n : Nat) (hn : 2 ≤ n) :
    isLegalRookMove b src
      ⟨src.row + (n : Int) * dr, src.col + (n : Int) * dc⟩ = false := by
  simp only [isLegalRookMove]
  rw [show src.row + (n : Int) * dr - src.row = (n : Int) * dr from by ring,
      show src.col + (n : Int) * dc - src.col = (n : Int) * dc from by ring]
  rw [if_neg (by
    rintro (⟨h, _⟩ | ⟨_, h⟩) <;> rcases hdr with rfl | rfl <;>
      rcases hdc with rfl | rfl <;> omega)]

/-- A vertical displacement fails the bishop's diagonality test. -/
theorem bishop_rejects_vertical (b : Board) (src : Square) (d : Int)
    (hd : d = 1 ∨ d = -1) (n : Nat) (hn : 2 ≤ n) :
    isLegalBishopMove b src ⟨src.row + (n : Int) * d, src.col⟩ = false := by
  simp only [isLegalBishopMove]
  rw [show src.row + (n : Int) * d - src.row = (n : Int) * d from by ring,
      show src.col - src.col = (0 : Int) from by ring]
  rw [if_neg (by rcases hd with rfl | rfl <;> simp [Int.natAbs_mul] <;> omega)]

/-- A horizontal displacement fails the bishop's diagonality test. -/
theorem bishop_rejects_horizontal (b : Board) (src : Square) (d : Int)
    (hd : d = 1 ∨ d = -1) (n : Nat) (hn : 2 ≤ n) :
    isLegalBishopMove b src ⟨src.row, src.col + (n : Int) * d⟩ = false := by
  simp only [isLegalBishopMove]
  rw [show src.row - src.row = (0 : Int) from by ring,
      show src.col + (n : Int) * d - src.col = (n : Int) * d from by ring]
  rw [if_neg (by rcases hd with rfl | rfl <;> simp [Int.natAbs_mul] <;> omega)]

/-- C6: for every straight or diagonal path of length 2..7 between two
distinct aligned squares, if any square strictly between origin and target
is occupied, the corresponding sliding predicate — and hence the queen's —
returns `false`.  (For a straight path the bishop predicate is also
`false` by misalignment, and symmetrically, so all three conclusions hold
in every case.) -/
theorem sliding_path_blocked (b : Board) (src : Square) (dr dc : Int) (n k : Nat)
    (hdr : dr = -1 ∨ dr = 0 ∨ dr = 1) (hdc : dc = -1 ∨ dc = 0 ∨ dc = 1)
    (hnz : ¬(dr = 0 ∧ dc = 0)) (hn : 2 ≤ n) (hn7 : n ≤ 7) (hk : 1 ≤ k) (hkn : k < n)
    (hocc : b (src.row + (k : Int) * dr) (src.col + (k : Int) * dc) ≠ 0) :
    isLegalRookMove b src ⟨src.row + (n : Int) * dr, src.col + (n : Int) * dc⟩ = false ∧
    isLegalBishopMove b src ⟨src.row + (n : Int) * dr, src.col + (n : Int) * dc⟩ = false ∧
    isLegalQueenMove b src ⟨src.row + (n : Int) * dr, src.col + (n : Int) * dc⟩ = false := by
  by_cases hdr0 : dr = 0
  · subst hdr0
    have hdc' : dc = 1 ∨ dc = -1 := by rcases hdc with rfl | rfl | rfl <;> simp_all
    have htgt : (⟨src.row + (n : Int) * 0, src.col + (n : Int) * dc⟩ : Square) =
        ⟨src.row, src.col + (n : Int) * dc⟩ := by norm_num
    rw [htgt]
    have hocc' : b src.row (src.col + (k : Int) * dc) ≠ 0 := by simpa using hocc
    have hr := horizontal_rook_blocked b src dc hdc' n k hn (by omega) hk hkn hocc'
    have hb := bishop_rejects_horizontal b src dc hdc' n hn
    exact ⟨hr, hb, by simp [isLegalQueenMove, hr, hb]⟩
  · by_cases hdc0 : dc = 0
    · subst hdc0
      have hdr' : dr = 1 ∨ dr = -1 := by rcases hdr with rfl | rfl | rfl <;> simp_all
      have htgt : (⟨src.row + (n : Int) * dr, src.col + (n : Int) * 0⟩ : Square) =
          ⟨src.row + (n : Int) * dr, src.col⟩ := by norm_num
      rw [htgt]
      have hocc' : b (src.row + (k : Int) * dr) src.col ≠ 0 := by simpa using hocc
      have hr := vertical_rook_blocked b src dr hdr' n k hn (by omega) hk hkn hocc'
      have hb := bishop_rejects_vertical b src dr hdr' n hn
      exact ⟨hr, hb, by simp [isLegalQueenMove, hr, hb]⟩
    · have hdr' : dr = 1 ∨ dr = -1 := by rcases hdr with rfl | rfl | rfl <;> simp_all
      have hdc' : dc = 1 ∨ dc = -1 := by rcases hdc with rfl | rfl | rfl <;> simp_all
      have hb := diagonal_bishop_blocked b src dr dc hdr' hdc' n k hn (by omega) hk hkn hocc
      have hr := rook_rejects_diagonal b src dr dc hdr' hdc' n hn
      exact ⟨hr, hb, by simp [isLegalQueenMove, hr, hb]⟩

/-- A board with a single pawn on `(0, 1)`, blocking the `(0,0)`–`(0,2)` file. -/
def blockedBoard : Board := fun r c => if r = 0 ∧ c = 1 then PAWN else 0

/-- C6 witness: the blocked rank `(0,0) → (0,2)` with a pawn on `(0,1)` is
rejected by the rook, bishop and queen predicates. -/
theorem sliding_path_blocked_witness :
    isLegalRookMove blockedBoard ⟨0, 0⟩ ⟨0, 2⟩ = false ∧
    isLegalBishopMove blockedBoard ⟨0, 0⟩ ⟨0, 2⟩ = false ∧
    isLegalQueenMove blockedBoard ⟨0, 0⟩ ⟨0, 2⟩ = false := by
  have h := sliding_path_blocked blockedBoard ⟨0, 0⟩ 0 1 2 1
    (Or.inr (Or.inl rfl)) (Or.inr (Or.inr rfl)) (by simp)
    (by omega) (by omega) (by omega) (by omega) (by decide)
  norm_num at h
  exact h

/-! ## C5 -/

/-- The pawn-legality case analysis exactly as the claim states it
(spec-side definition, to be compared with the source transcription
`isLegalPawnMove`): backward moves are illegal; a forward single step is
legal regardless of occupancy; a forward diagonal step is legal iff the
target times the pawn's sign is ≤ 0; a forward double step is legal iff
the pawn stands on its home rank and the single intervening square is
empty; everything else is illegal. -/
def pawnRuleSpec (b : Board) (old target : Square) : Bool :=
  let s := b old.row old.col
  let dr := target.row - old.row
  let dc := target.col - old.col
  if dr * s > 0 then false
  else if dc = 0 ∧ dr = -s then true
  else if dc.natAbs = 1 ∧ dr = -s then decide (b target.row target.col * s ≤ 0)
  else if dc = 0 ∧ dr.natAbs = 2 then
    decide (((s = 1 ∧ old.row = 6) ∨ (s = -1 ∧ old.row = 1)) ∧
      b (old.row - s) old.col = 0)
  else false

/-- The double-step walk of a positive pawn checks exactly the single
intervening square. -/
theorem pawn_leap_interrupt_pos (b : Board) (r0 c0 : Int) :
    isPieceInterrupting b (-1) 0 ⟨r0, c0⟩ ⟨r0 - 2, c0⟩ =
      !decide (b (r0 - 1) c0 = 0) := by
  show interruptAux b (-1) 0 (r0 - 2) c0 (15 + 1) (r0 + -1) (c0 + 0) = _
  rw [show r0 + (-1 : Int) = r0 - 1 from by ring, show c0 + (0 : Int) = c0 from by ring]
  rw [interruptAux]
  rw [if_neg (by omega)]
  by_cases hm : b (r0 - 1) c0 = 0
  · rw [if_neg (by simp [hm])]
    rw [show r0 - 1 + (-1 : Int) = r0 - 2 from by ring, show c0 + (0 : Int) = c0 from by ring]
    show interruptAux b (-1) 0 (r0 - 2) c0 (14 + 1) (r0 - 2) c0 = _
    rw [interruptAux, if_pos ⟨rfl, rfl⟩]
    simp [hm]
  · rw [if_pos hm]
    simp [hm]

/-- The double-step walk of a negative pawn checks exactly the single
intervening square. -/
theorem pawn_leap_interrupt_neg (b : Board) (r0 c0 : Int) :
    isPieceInterrupting b 1 0 ⟨r0, c0⟩ ⟨r0 + 2, c0⟩ =
      !decide (b (r0 + 1) c0 = 0) := by
  show interruptAux b 1 0 (r0 + 2) c0 (15 + 1) (r0 + 1) (c0 + 0) = _
  rw [show c0 + (0 : Int) = c0 from by ring]
  rw [interruptAux]
  rw [if_neg (by omega)]
  by_cases hm : b (r0 + 1) c0 = 0
  · rw [if_neg (by simp [hm])]
    rw [show r0 + 1 + (1 : Int) = r0 + 2 from by ring, show c0 + (0 : Int) = c0 from by ring]
    show interruptAux b 1 0 (r0 + 2) c0 (14 + 1) (r0 + 2) c0 = _
    rw [interruptAux, if_pos ⟨rfl, rfl⟩]
    simp [hm]
  · rw [if_pos hm]
    simp [hm]

/-- C5: on every board, for every origin square holding a pawn, the source
predicate `isLegalPawnMove` coincides with the claim's case analysis
`pawnRuleSpec`. -/
theorem pawn_rule_matches (b : Board) (old target : Square)
    (hpawn : b old.row old.col = PAWN ∨ b old.row old.col = -PAWN) :
    isLegalPawnMove b old target = pawnRuleSpec b old target := by
  obtain ⟨r0, c0⟩ := old
  obtain ⟨r1, c1⟩ := target
  rcases hpawn with hs | hs
  · simp only [isLegalPawnMove, pawnRuleSpec, hs, PAWN, WHITE, BLACK]
    by_cases h1 : (r1 - r0) * 1 > 0
    · rw [if_pos h1, if_pos h1]
    · rw [if_neg h1, if_neg h1]
      by_cases hA : (c1 - c0).natAbs = 1 ∧ (r1 - r0) * 1 = -1
      · rw [if_pos hA]
        have hnsingle : ¬(c1 - c0 = 0 ∧ r1 - r0 = -1) := by omega
        have hattack : (c1 - c0).natAbs = 1 ∧ r1 - r0 = -1 := by omega
        rw [if_neg hnsingle, if_pos hattack]
      · rw [if_neg hA]
        by_cases hD : c1 - c0 = 0 ∧ (r1 - r0).natAbs = 2
        · rw [if_pos hD]
          have hdr2 : r1 - r0 = -2 := by omega
          have hnsingle : ¬(c1 - c0 = 0 ∧ r1 - r0 = -1) := by omega
          have hnattack : ¬((c1 - c0).natAbs = 1 ∧ r1 - r0 = -1) := by omega
          rw [if_neg hnsingle, if_neg hnattack, if_pos hD]
          obtain rfl : c0 = c1 := by omega
          obtain rfl : r1 = r0 - 2 := by omega
          by_cases hhome : r0 = 6
          · rw [if_neg (by simp [hhome])]
            rw [pawn_leap_interrupt_pos b r0 c0]
            by_cases hmid : b (r0 - 1) c0 = 0 <;> simp [hmid, hhome]
          · rw [if_pos (Or.inl ⟨by simp, hhome⟩)]
            simp [hhome]
        · rw [if_neg hD]
          by_cases hS : c1 - c0 = 0 ∧ (r1 - r0).natAbs = 1
          · rw [if_pos hS]
            have hsingle : c1 - c0 = 0 ∧ r1 - r0 = -1 := by omega
            rw [if_pos hsingle]
          · rw [if_neg hS]
            have hnsingle : ¬(c1 - c0 = 0 ∧ r1 - r0 = -1) := by omega
            have hnattack : ¬((c1 - c0).natAbs = 1 ∧ r1 - r0 = -1) := by omega
            rw [if_neg hnsingle, if_neg hnattack, if_neg hD]
  · simp only [isLegalPawnMove, pawnRuleSpec, hs, PAWN, WHITE, BLACK, neg_neg,
      sub_neg_eq_add]
    by_cases h1 : (r1 - r0) * -1 > 0
    · rw [if_pos h1, if_pos h1]
    · rw [if_neg h1, if_neg h1]
      by_cases hA : (c1 - c0).natAbs = 1 ∧ (r1 - r0) * -1 = -1
      · rw [if_pos hA]
        have hnsingle : ¬(c1 - c0 = 0 ∧ r1 - r0 = 1) := by omega
        have hattack : (c1 - c0).natAbs = 1 ∧ r1 - r0 = 1 := by omega
        rw [if_neg hnsingle, if_pos hattack]
      · rw [if_neg hA]
        by_cases hD : c1 - c0 = 0 ∧ (r1 - r0).natAbs = 2
        · rw [if_pos hD]
          have hdr2 : r1 - r0 = 2 := by omega
          have hnsingle : ¬(c1 - c0 = 0 ∧ r1 - r0 = 1) := by omega
          have hnattack : ¬((c1 - c0).natAbs = 1 ∧ r1 - r0 = 1) := by omega
          rw [if_neg hnsingle, if_neg hnattack, if_pos hD]
          obtain rfl : c0 = c1 := by omega
          obtain rfl : r1 = r0 + 2 := by omega
          by_cases hhome : r0 = 1
          · rw [if_neg (by simp [hhome])]
            rw [pawn_leap_interrupt_neg b r0 c0]
            by_cases hmid : b (r0 + 1) c0 = 0 <;> simp [hmid, hhome]
          · rw [if_pos (Or.inr ⟨by simp, hhome⟩)]
            simp [hhome]
        · rw [if_neg hD]
          by_cases hS : c1 - c0 = 0 ∧ (r1 - r0).natAbs = 1
          · rw [if_pos hS]
            have hsingle : c1 - c0 = 0 ∧ r1 - r0 = 1 := by omega
            rw [if_pos hsingle]
          · rw [if_neg hS]
            have hnsingle : ¬(c1 - c0 = 0 ∧ r1 - r0 = 1) := by omega
            have hnattack : ¬((c1 - c0).natAbs = 1 ∧ r1 - r0 = 1) := by omega
            rw [if_neg hnsingle, if_neg hnattack, if_neg hD]

/-- C5 witness: the equivalence at the double-step e2→e4 of the starting
position, where both predicates accept. -/
theorem pawn_rule_matches_witness :
    isLegalPawnMove defaultBoard ⟨6, 4⟩ ⟨4, 4⟩ = pawnRuleSpec defaultBoard ⟨6, 4⟩ ⟨4, 4⟩ ∧
    isLegalPawnMove defaultBoard ⟨6, 4⟩ ⟨4, 4⟩ = true :=
  ⟨pawn_rule_matches defaultBoard ⟨6, 4⟩ ⟨4, 4⟩ (Or.inl (by decide)), by decide⟩

/-! ## C8 -/

/-- A `movePieceUnconditionally` call never emits the puzzle-beaten event. -/
theorem count_beat_mpu (b : Board) (p : Int) (src dst : Square) :
    (movePieceUnconditionally b p src dst).events.count Event.beatPuzzle = 0 := by
  unfold movePieceUnconditionally
  by_cases h1 : b dst.row dst.col ≠ 0 ∧ b src.row src.col ≠ 0 <;>
    by_cases h2 : (b dst.row dst.col).natAbs = 6 <;>
      simp [h1, h2, List.count_cons, List.count_append]

/-- C8: `makeGuess` returns `false` and leaves the state untouched when the
puzzle is already solved or the guess differs from the scripted move at
`currentStep`; on a match it applies exactly the guessed move
unconditionally, advances `currentStep` by exactly one (the scripted
opponent reply is only scheduled, never applied within the call), returns
`true`, and fires the puzzle-beaten event iff the new `currentStep` equals
the solution length. -/
theorem makeGuess_contract (st : PuzzleState) (src dst : Square) :
    ((st.currentStep ≥ st.solutionMoves.length ∨
        st.solutionMoves.get? st.currentStep ≠ some (src, dst)) →
      makeGuess st src dst = ⟨false, st, false⟩) ∧
    (st.solutionMoves.get? st.currentStep = some (src, dst) →
      (makeGuess st src dst).res = true ∧
      (makeGuess st src dst).state.board =
        (st.board.set dst.row dst.col (st.board src.row src.col)).set
          src.row src.col 0 ∧
      (makeGuess st src dst).state.currentStep = st.currentStep + 1 ∧
      (makeGuess st src dst).state.events.count Event.beatPuzzle =
        st.events.count Event.beatPuzzle +
          (if st.currentStep + 1 = st.solutionMoves.length then 1 else 0) ∧
      (makeGuess st src dst).scheduledOpponent =
        !(decide (st.currentStep + 1 = st.solutionMoves.length))) := by
  constructor
  · intro h
    unfold makeGuess
    by_cases hge : st.currentStep ≥ st.solutionMoves.length
    · rw [if_pos hge]
    · rw [if_neg hge]
      rcases h with h | h
      · exact absurd h hge
      · cases hget : st.solutionMoves.get? st.currentStep with
        | none =>
          exact absurd (List.get?_eq_none.mp hget) (by omega)
        | some mv =>
          obtain ⟨e1, e2⟩ := mv
          rw [hget] at h
          dsimp only
          rw [if_neg (by rintro ⟨rfl, rfl⟩; exact h rfl)]
  · intro hget
    have hlt : st.currentStep < st.solutionMoves.length := by
      by_contra hge
      rw [List.get?_eq_none.mpr (by omega)] at hget
      exact absurd hget (by simp)
    unfold makeGuess
    rw [if_neg (by omega), hget]
    dsimp only
    rw [if_pos ⟨rfl, rfl⟩]
    by_cases hend : st.currentStep + 1 = st.solutionMoves.length
    · rw [if_pos hend]
      refine ⟨rfl, rfl, rfl, ?_, by simp [hend]⟩
      simp [List.count_append, count_beat_mpu, hend]
    · rw [if_neg hend]
      refine ⟨rfl, rfl, rfl, ?_, by simp [hend]⟩
      simp [List.count_append, count_beat_mpu, hend]

/-- A mid-solution puzzle state used to instantiate the `makeGuess`
contract: one scripted move left for the player. -/
def guessExampleState : PuzzleState where
  board := blockedBoard
  currentPlayer := WHITE
  currentStep := 0
  puzzleElo := 600
  solutionMoves := [(⟨0, 1⟩, ⟨3, 1⟩)]
  usedHint := false
  events := [Event.setPlayer WHITE]

/-- C8 witness: the contract at a concrete state: a wrong guess is a no-op
returning `false`; the scripted guess returns `true`, advances the cursor
to the end, and fires the puzzle-beaten event. -/
theorem makeGuess_contract_witness :
    makeGuess guessExampleState ⟨0, 1⟩ ⟨4, 1⟩ = ⟨false, guessExampleState, false⟩ ∧
    (makeGuess guessExampleState ⟨0, 1⟩ ⟨3, 1⟩).res = true ∧
    (makeGuess guessExampleState ⟨0, 1⟩ ⟨3, 1⟩).state.currentStep = 1 ∧
    (makeGuess guessExampleState ⟨0, 1⟩ ⟨3, 1⟩).state.events.count Event.beatPuzzle = 1 := by
  refine ⟨(makeGuess_contract guessExampleState ⟨0, 1⟩ ⟨4, 1⟩).1 (Or.inr (by decide)), ?_⟩
  have h := (makeGuess_contract guessExampleState ⟨0, 1⟩ ⟨3, 1⟩).2 (by decide)
  refine ⟨h.1, h.2.2.1, ?_⟩
  have hc := h.2.2.2.1
  simpa [guessExampleState] using hc

/-! ## C7 -/

/-- C7: for a CSV record with at least 9 comma-separated fields, a FEN with
well-formed placement and active-color fields, an integer rating field, and
a non-empty move list of algebraic square pairs, the constructor produces
the FEN board with the solution move at index 0 applied (destination
overwritten by the origin piece, origin cleared), `currentStep = 1`, the
rating from field 3, and emits the side-to-move after that forced opponent
move as the last event. -/
theorem puzzle_csv_construction (PGN fen moves eloField : List Char)
    (b : Board) (pl elo : Int) (mvFrom mvTo : Square)
    (rest : List (Square × Square))
    (hlen : (splitString ',' PGN).length ≥ 9)
    (hfen : (splitString ',' PGN).get? 1 = some fen)
    (hmov : (splitString ',' PGN).get? 2 = some moves)
    (helo : (splitString ',' PGN).get? 3 = some eloField)
    (hstoi : stoiCpp eloField = some elo)
    (hload : loadFEN fen = some (b, pl))
    (hsol : loadMoves moves = some ((mvFrom, mvTo) :: rest)) :
    mkPuzzleFromCSV PGN = some
      { board := (b.set mvTo.row mvTo.col (b mvFrom.row mvFrom.col)).set
          mvFrom.row mvFrom.col 0
        currentPlayer := switchPlayer pl
        currentStep := 1
        puzzleElo := elo
        solutionMoves := (mvFrom, mvTo) :: rest
        usedHint := false
        events := [Event.setPlayer WHITE] ++
          (movePieceUnconditionally b pl mvFrom mvTo).events ++
          [Event.setPlayer (switchPlayer pl)] } ∧
    ((movePieceUnconditionally b pl mvFrom mvTo).events ++
      [Event.setPlayer (switchPlayer pl)]).getLast? =
      some (Event.setPlayer (switchPlayer pl)) := by
  constructor
  · unfold mkPuzzleFromCSV
    rw [if_neg (by omega)]
    rw [hfen, hmov, helo]
    dsimp only
    rw [hstoi]
    dsimp only
    rw [hload]
    dsimp only
    rw [hsol]
    dsimp only
    unfold makeOpponentMove
    dsimp only [List.get?_cons_zero]
    rfl
  · exact List.getLast?_concat _

/-- The concrete puzzle record used to instantiate the construction
contract. -/
def examplePuzzleRecord : List Char :=
  ("00,6k1/8/8/8/8/8/8/R5K1 w - - 0 1,a1a8 g8h7,1200,75,90,500,mate,url").toList

/-- The board parsed from the example record's FEN placement field. -/
def exampleFenBoard : Board :=
  (fenFold (("6k1/8/8/8/8/8/8/R5K1").toList) (0, 0, emptyBoard)).2.2

/-- C7 witness: the construction contract at the concrete record: the
session advances to step 1 with rating 1200, black to move. -/
theorem puzzle_csv_construction_witness :
    mkPuzzleFromCSV examplePuzzleRecord = some
      { board := ((exampleFenBoard.set 0 0 (exampleFenBoard 7 0)).set 7 0 0)
        currentPlayer := switchPlayer WHITE
        currentStep := 1
        puzzleElo := 1200
        solutionMoves := [(⟨7, 0⟩, ⟨0, 0⟩), (⟨0, 6⟩, ⟨1, 7⟩)]
        usedHint := false
        events := [Event.setPlayer WHITE] ++
          (movePieceUnconditionally exampleFenBoard WHITE ⟨7, 0⟩ ⟨0, 0⟩).events ++
          [Event.setPlayer (switchPlayer WHITE)] } :=
  (puzzle_csv_construction examplePuzzleRecord
    (("6k1/8/8/8/8/8/8/R5K1 w - - 0 1").toList)
    (("a1a8 g8h7").toList) (("1200").toList)
    exampleFenBoard WHITE 1200 ⟨7, 0⟩ ⟨0, 0⟩ [(⟨0, 6⟩, ⟨1, 7⟩)]
    (by decide) rfl rfl rfl rfl rfl rfl).1

end ChessTutor
